import Mathlib

/-!
Shallow embedding of the sliding-window aggregation engine of
`gmc-geiger-mqtt` (`src/gmc_geiger_mqtt/processing/aggregator.py` and
`src/models.py`).

Timestamps (`datetime`) are modelled as integers (seconds); `timedelta`
values are integers as well, so `a - b` on timestamps is the duration in
seconds.  Python floats (`cpm_avg`, `usv_h_avg`, `conversion_factor`) are
modelled as exact rationals.  The `deque` buffer is a Lean `List` whose
head is the left (oldest) end of the deque.

Every method of `MovingAverageAggregator` is translated as an explicit
state-passing function; methods that mutate nothing return the state
unchanged so that frame properties are statable.
-/

/-- `models.Reading`: a single radiation reading (`cpm`, `timestamp`). -/
structure Reading where
  cpm : Int
  timestamp : Int
  deriving Repr, DecidableEq

/-- `Reading.__post_init__`: construction raises `ValueError` when
`cpm < 0`, otherwise produces the reading unchanged.  Modelled as a
total function into `Except`. -/
def mkReading (cpm : Int) (timestamp : Int) : Except String Reading :=
  if cpm < 0 then
    Except.error "CPM must be non-negative"
  else
    Except.ok { cpm := cpm, timestamp := timestamp }

/-- `models.AggregatedReading`: aggregated statistics over a window. -/
structure AggregatedReading where
  cpm_avg : Rat
  cpm_min : Int
  cpm_max : Int
  usv_h_avg : Rat
  window_seconds : Int
  sample_count : Nat
  timestamp : Int
  samples : List Reading
  deriving Repr, DecidableEq

/-- The state of `MovingAverageAggregator`: the construction-time
configuration, the sample deque (head = oldest) and the optional
last-aggregation timestamp. -/
structure MovingAverageAggregator where
  window_seconds : Int
  conversion_factor : Rat
  samples : List Reading
  last_aggregation_time : Option Int
  deriving Repr, DecidableEq

namespace MovingAverageAggregator

/-- `MovingAverageAggregator.__init__`: empty deque, no last
aggregation time. -/
def init (window_seconds : Int) (conversion_factor : Rat) :
    MovingAverageAggregator :=
  { window_seconds := window_seconds
    conversion_factor := conversion_factor
    samples := []
    last_aggregation_time := none }

/-- The `while self._samples and self._samples[0].timestamp < cutoff_time:
popleft` loop of `_clean_old_samples`, acting on the deque. -/
def dropOld (cutoff_time : Int) : List Reading → List Reading
  | [] => []
  | r :: rest =>
    if r.timestamp < cutoff_time then dropOld cutoff_time rest
    else r :: rest

/-- `MovingAverageAggregator._clean_old_samples`. -/
def clean_old_samples (s : MovingAverageAggregator) (current_time : Int) :
    MovingAverageAggregator :=
  { s with samples := dropOld (current_time - s.window_seconds) s.samples }

/-- `MovingAverageAggregator.add_reading`: append to the right of the
deque, then clean using the new reading's timestamp. -/
def add_reading (s : MovingAverageAggregator) (reading : Reading) :
    MovingAverageAggregator :=
  clean_old_samples { s with samples := s.samples ++ [reading] }
    reading.timestamp

/-- `MovingAverageAggregator.get_aggregated`: `None` on an empty buffer,
otherwise the statistics of the buffer.  Returns the (unchanged) state as
well so that the frame property is statable. -/
def get_aggregated (s : MovingAverageAggregator) :
    Option AggregatedReading × MovingAverageAggregator :=
  match s.samples with
  | [] => (none, s)
  | r :: rest =>
    let cpm_values : List Int := (r :: rest).map (fun x => x.cpm)
    let cpm_avg : Rat := (cpm_values.sum : Rat) / (cpm_values.length : Rat)
    let cpm_min : Int := (rest.map (fun x => x.cpm)).foldl min r.cpm
    let cpm_max : Int := (rest.map (fun x => x.cpm)).foldl max r.cpm
    let usv_h_avg : Rat := cpm_avg * s.conversion_factor
    let timestamp : Int := ((r :: rest).getLast (List.cons_ne_nil r rest)).timestamp
    (some
      { cpm_avg := cpm_avg
        cpm_min := cpm_min
        cpm_max := cpm_max
        usv_h_avg := usv_h_avg
        window_seconds := s.window_seconds
        sample_count := (r :: rest).length
        timestamp := timestamp
        samples := r :: rest }, s)

/-- `MovingAverageAggregator.should_publish`: `True` when no aggregation
was ever marked, otherwise `elapsed >= interval_seconds`. -/
def should_publish (s : MovingAverageAggregator) (current_time : Int)
    (interval_seconds : Int) : Bool × MovingAverageAggregator :=
  match s.last_aggregation_time with
  | none => (true, s)
  | some t => (decide (interval_seconds ≤ current_time - t), s)

/-- `MovingAverageAggregator.mark_published`: unconditional assignment of
`_last_aggregation_time`. -/
def mark_published (s : MovingAverageAggregator) (timestamp : Int) :
    MovingAverageAggregator :=
  { s with last_aggregation_time := some timestamp }

/-- `MovingAverageAggregator.get_sample_count`. -/
def get_sample_count (s : MovingAverageAggregator) : Nat :=
  s.samples.length

/-- `MovingAverageAggregator.get_window_age`: `None` on an empty buffer,
otherwise `newest.timestamp - oldest.timestamp`. -/
def get_window_age (s : MovingAverageAggregator) : Option Int :=
  match s.samples with
  | [] => none
  | r :: rest =>
    some (((r :: rest).getLast (List.cons_ne_nil r rest)).timestamp - r.timestamp)

/-- `MovingAverageAggregator.clear`: empties the deque and forgets the
last aggregation time. -/
def clear (s : MovingAverageAggregator) : MovingAverageAggregator :=
  { s with samples := [], last_aggregation_time := none }

/-- Folding `add_reading` over a stream of readings (the poll loop's
repeated `ingest`). -/
def ingestAll (s : MovingAverageAggregator) (rs : List Reading) :
    MovingAverageAggregator :=
  rs.foldl add_reading s

/-! ### Structural lemmas about the eviction loop and the fold helpers -/

theorem dropOld_sublist (c : Int) (l : List Reading) :
    List.Sublist (dropOld c l) l := by
  induction l with
  | nil => exact List.Sublist.refl _
  | cons r rest ih =>
    simp only [dropOld]
    split
    · exact ih.trans (List.sublist_cons_self r rest)
    · exact List.Sublist.refl _

/-- On a buffer sorted by timestamp, every sample surviving the eviction
loop is at or after the cutoff. -/
theorem mem_dropOld_sorted (c : Int) (l : List Reading)
    (hs : l.Pairwise (fun a b => a.timestamp ≤ b.timestamp)) :
    ∀ x ∈ dropOld c l, c ≤ x.timestamp := by
  induction l with
  | nil => intro x hx; simp [dropOld] at hx
  | cons r rest ih =>
    intro x hx
    simp only [dropOld] at hx
    split at hx
    · exact ih hs.tail x hx
    · rename_i hge
      push_neg at hge
      rcases List.mem_cons.mp hx with rfl | hmem
      · exact hge
      · exact hge.trans ((List.pairwise_cons.mp hs).1 x hmem)

/-- The eviction loop never removes the newly appended tail sample when
the tail is at or after the cutoff. -/
theorem dropOld_concat (c : Int) (l : List Reading) (r : Reading)
    (h : c ≤ r.timestamp) :
    ∃ l₂, dropOld c (l ++ [r]) = l₂ ++ [r] := by
  induction l with
  | nil =>
    refine ⟨[], ?_⟩
    simp [dropOld, not_lt.mpr h]
  | cons a l' ih =>
    by_cases ha : a.timestamp < c
    · simpa [dropOld, ha] using ih
    · exact ⟨a :: l', by simp [dropOld, ha]⟩

theorem foldl_min_mem (l : List Int) : ∀ a : Int, l.foldl min a ∈ a :: l := by
  induction l with
  | nil => intro a; exact List.mem_cons_self a []
  | cons b l' ih =>
    intro a
    rw [List.foldl_cons]
    rcases List.mem_cons.mp (ih (min a b)) with h' | h'
    · rw [h']
      rcases min_choice a b with hm | hm
      · rw [hm]; exact List.mem_cons_self _ _
      · rw [hm]; exact List.mem_cons.mpr (Or.inr (List.mem_cons_self _ _))
    · exact List.mem_cons.mpr (Or.inr (List.mem_cons.mpr (Or.inr h')))

theorem foldl_min_le (l : List Int) :
    ∀ a x : Int, x ∈ a :: l → l.foldl min a ≤ x := by
  induction l with
  | nil =>
    intro a x hx
    rcases List.mem_cons.mp hx with rfl | hx'
    · exact le_refl _
    · exact absurd hx' (List.not_mem_nil x)
  | cons b l' ih =>
    intro a x hx
    rw [List.foldl_cons]
    rcases List.mem_cons.mp hx with h | hx'
    · rw [h]
      exact le_trans (ih (min a b) _ (List.mem_cons_self _ _)) (min_le_left a b)
    · rcases List.mem_cons.mp hx' with h | hx''
      · rw [h]
        exact le_trans (ih (min a b) _ (List.mem_cons_self _ _)) (min_le_right a b)
      · exact ih (min a b) x (List.mem_cons.mpr (Or.inr hx''))

theorem foldl_max_mem (l : List Int) : ∀ a : Int, l.foldl max a ∈ a :: l := by
  induction l with
  | nil => intro a; exact List.mem_cons_self a []
  | cons b l' ih =>
    intro a
    rw [List.foldl_cons]
    rcases List.mem_cons.mp (ih (max a b)) with h' | h'
    · rw [h']
      rcases max_choice a b with hm | hm
      · rw [hm]; exact List.mem_cons_self _ _
      · rw [hm]; exact List.mem_cons.mpr (Or.inr (List.mem_cons_self _ _))
    · exact List.mem_cons.mpr (Or.inr (List.mem_cons.mpr (Or.inr h')))

theorem foldl_max_ge (l : List Int) :
    ∀ a x : Int, x ∈ a :: l → x ≤ l.foldl max a := by
  induction l with
  | nil =>
    intro a x hx
    rcases List.mem_cons.mp hx with rfl | hx'
    · exact le_refl _
    · exact absurd hx' (List.not_mem_nil x)
  | cons b l' ih =>
    intro a x hx
    rw [List.foldl_cons]
    rcases List.mem_cons.mp hx with h | hx'
    · rw [h]
      exact le_trans (le_max_left a b) (ih (max a b) _ (List.mem_cons_self _ _))
    · rcases List.mem_cons.mp hx' with h | hx''
      · rw [h]
        exact le_trans (le_max_right a b) (ih (max a b) _ (List.mem_cons_self _ _))
      · exact ih (max a b) x (List.mem_cons.mpr (Or.inr hx''))

theorem add_reading_window (s : MovingAverageAggregator) (r : Reading) :
    (s.add_reading r).window_seconds = s.window_seconds := rfl

theorem ingestAll_window (s : MovingAverageAggregator) (rs : List Reading) :
    (s.ingestAll rs).window_seconds = s.window_seconds := by
  induction rs generalizing s with
  | nil => rfl
  | cons r rs' ih => exact ih (s.add_reading r)

/-- The buffer after ingesting a stream is a sublist of the previous
buffer followed by the stream. -/
theorem ingestAll_samples_sublist (s : MovingAverageAggregator)
    (rs : List Reading) :
    List.Sublist (s.ingestAll rs).samples (s.samples ++ rs) := by
  induction rs generalizing s with
  | nil => simp [ingestAll]
  | cons r rs' ih =>
    have h2 := ih (s.add_reading r)
    have h3 : List.Sublist (s.add_reading r).samples (s.samples ++ [r]) :=
      dropOld_sublist _ _
    have h5 := h2.trans (h3.append_right rs')
    simpa [ingestAll, List.foldl_cons] using h5

/-- Core of the window invariant: ingesting a stream whose timestamps
are pairwise strictly increasing into a fresh engine leaves only samples
within `windowDuration` of the last sample's timestamp. -/
theorem ingest_window_bound (w : Int) (cf : Rat) (rs : List Reading)
    (r : Reading)
    (hpw : (rs ++ [r]).Pairwise
      (fun a b : Reading => a.timestamp < b.timestamp)) :
    ∀ x ∈ ((init w cf).ingestAll (rs ++ [r])).samples,
      r.timestamp - w ≤ x.timestamp := by
  intro x hx
  have hfold : (init w cf).ingestAll (rs ++ [r]) =
      ((init w cf).ingestAll rs).add_reading r := by
    simp [ingestAll, List.foldl_append]
  set s' := (init w cf).ingestAll rs with hs'
  have hsub : List.Sublist s'.samples rs := by
    simpa [init] using ingestAll_samples_sublist (init w cf) rs
  have hsub2 : List.Sublist (s'.samples ++ [r]) (rs ++ [r]) :=
    hsub.append_right [r]
  have hpw2 : (s'.samples ++ [r]).Pairwise
      (fun a b : Reading => a.timestamp ≤ b.timestamp) :=
    (hpw.sublist hsub2).imp (fun h => le_of_lt h)
  have hwin : s'.window_seconds = w := by
    simpa [init] using ingestAll_window (init w cf) rs
  have hx' : x ∈ dropOld (r.timestamp - w) (s'.samples ++ [r]) := by
    rw [hfold] at hx
    have heq : (s'.add_reading r).samples =
        dropOld (r.timestamp - s'.window_seconds) (s'.samples ++ [r]) := rfl
    rw [heq, hwin] at hx
    exact hx
  exact mem_dropOld_sorted _ _ hpw2 x hx'

theorem get_aggregated_snd (s : MovingAverageAggregator) :
    (s.get_aggregated).2 = s := by
  obtain ⟨w, cf, samples, last⟩ := s
  cases samples <;> rfl

theorem should_publish_snd (s : MovingAverageAggregator)
    (now interval : Int) : (s.should_publish now interval).2 = s := by
  obtain ⟨w, cf, samples, last⟩ := s
  cases last <;> rfl

end MovingAverageAggregator

open MovingAverageAggregator

/-! ### The claims -/

/-- C5: `makeSample(count, timestamp)` fails with the validation error
exactly when `count < 0`; for `count ≥ 0` it returns a sample carrying the
given count and timestamp.  It is a pure function (modelled as such), with
no other validation. -/
theorem C5_make_sample_validation (count timestamp : Int) :
    (count < 0 → mkReading count timestamp =
      Except.error "CPM must be non-negative") ∧
    (0 ≤ count → mkReading count timestamp =
      Except.ok { cpm := count, timestamp := timestamp }) := by
  constructor
  · intro h
    simp [mkReading, h]
  · intro h
    simp [mkReading, not_lt.mpr h]

theorem C5_make_sample_validation_witness :
    mkReading (-1) 0 = Except.error "CPM must be non-negative" ∧
    mkReading 42 5 = Except.ok { cpm := 42, timestamp := 5 } :=
  ⟨(C5_make_sample_validation (-1) 0).1 (by decide),
   (C5_make_sample_validation 42 5).2 (by decide)⟩

/-- C3: `shouldEmit(now, minInterval)` is `true` unconditionally when no
emission was ever recorded, and otherwise `true` iff
`now − lastEmittedAt ≥ minInterval` (inclusive boundary). -/
theorem C3_should_emit_gate (s : MovingAverageAggregator)
    (now interval : Int) :
    (s.last_aggregation_time = none →
      (s.should_publish now interval).1 = true) ∧
    (∀ t, s.last_aggregation_time = some t →
      ((s.should_publish now interval).1 = true ↔ interval ≤ now - t)) := by
  constructor
  · intro h
    simp [should_publish, h]
  · intro t h
    simp [should_publish, h]

theorem C3_should_emit_gate_witness :
    ((init 600 1).should_publish 5 600).1 = true ∧
    (((init 600 1).mark_published 0).should_publish 600 600).1 = true ∧
    ¬ ((((init 600 1).mark_published 0).should_publish 30 600).1 = true) := by
  refine ⟨?_, ?_, ?_⟩
  · exact (C3_should_emit_gate (init 600 1) 5 600).1 rfl
  · exact ((C3_should_emit_gate ((init 600 1).mark_published 0) 600 600).2
      0 rfl).mpr (by decide)
  · intro hc
    have h := ((C3_should_emit_gate ((init 600 1).mark_published 0) 30 600).2
      0 rfl).mp hc
    omega

/-- C9: the read operations `aggregate()` and `shouldEmit` leave the
whole engine state (buffer, gate, window duration, conversion factor)
unchanged. -/
theorem C9_reads_do_not_mutate (s : MovingAverageAggregator)
    (now interval : Int) :
    (s.get_aggregated).2 = s ∧ (s.should_publish now interval).2 = s :=
  ⟨get_aggregated_snd s, should_publish_snd s now interval⟩

/-- C8: `reset()` clears buffer and gate together: afterwards the sample
count is `0`, `aggregate()` is absent and `shouldEmit` is `true`; and
`reset()` is idempotent. -/
theorem C8_reset (s : MovingAverageAggregator) (now interval : Int) :
    (s.clear).get_sample_count = 0 ∧
    ((s.clear).get_aggregated).1 = none ∧
    ((s.clear).should_publish now interval).1 = true ∧
    (s.clear).clear = s.clear :=
  ⟨rfl, rfl, rfl, rfl⟩

/-- C7: `windowAge()` is absent exactly on an empty buffer, the zero
duration for a single sample, and `newest.observedAt − oldest.observedAt`
in general. -/
theorem C7_window_age (s : MovingAverageAggregator) :
    (s.get_window_age = none ↔ s.samples = []) ∧
    (∀ r, s.samples = [r] → s.get_window_age = some 0) ∧
    (∀ r rest, s.samples = r :: rest →
      s.get_window_age =
        some (((r :: rest).getLast (List.cons_ne_nil r rest)).timestamp
          - r.timestamp)) := by
  obtain ⟨w, cf, samples, last⟩ := s
  refine ⟨?_, ?_, ?_⟩
  · cases samples with
    | nil => simp [get_window_age]
    | cons r rest => simp [get_window_age]
  · intro r h
    simp only at h
    subst h
    simp [get_window_age]
  · intro r rest h
    simp only at h
    subst h
    rfl

theorem C7_window_age_witness :
    ((init 60 1).add_reading ⟨5, 100⟩).get_window_age = some 0 :=
  (C7_window_age ((init 60 1).add_reading ⟨5, 100⟩)).2.1 ⟨5, 100⟩ (by decide)

/-- C10: an `ingest` never evicts the sample that triggered it: when the
window duration is nonnegative, immediately after `add_reading` the
buffer is non-empty and its newest (last) entry is the ingested sample. -/
theorem C10_ingest_keeps_new_sample (s : MovingAverageAggregator)
    (r : Reading) (hw : 0 ≤ s.window_seconds) :
    (s.add_reading r).samples ≠ [] ∧
    (s.add_reading r).samples.getLast? = some r := by
  have hc : r.timestamp - s.window_seconds ≤ r.timestamp := by omega
  obtain ⟨l₂, hl₂⟩ :=
    dropOld_concat (r.timestamp - s.window_seconds) s.samples r hc
  have hs : (s.add_reading r).samples = l₂ ++ [r] := hl₂
  constructor
  · rw [hs]; simp
  · rw [hs]; exact List.getLast?_concat _

theorem C10_ingest_keeps_new_sample_witness :
    ((init 60 1).add_reading ⟨7, 3⟩).samples ≠ [] ∧
    ((init 60 1).add_reading ⟨7, 3⟩).samples.getLast? = some ⟨7, 3⟩ :=
  C10_ingest_keeps_new_sample (init 60 1) ⟨7, 3⟩ (by decide)

/-- C1: for every stream of samples with strictly increasing timestamps
ingested into a fresh engine, every sample remaining in the buffer
satisfies `observedAt ≥ latest.observedAt − windowDuration`, the cutoff
being computed from the newly appended sample's timestamp. -/
theorem C1_window_invariant (w : Int) (cf : Rat) (rs : List Reading)
    (r : Reading)
    (hchain : List.Chain' (fun a b : Reading => a.timestamp < b.timestamp)
      (rs ++ [r])) :
    ∀ x ∈ ((init w cf).ingestAll (rs ++ [r])).samples,
      r.timestamp - w ≤ x.timestamp := by
  haveI : IsTrans Reading (fun a b : Reading => a.timestamp < b.timestamp) :=
    ⟨fun _ _ _ hab hbc => lt_trans hab hbc⟩
  exact ingest_window_bound w cf rs r (List.chain'_iff_pairwise.mp hchain)

theorem C1_window_invariant_witness :
    (100 : Int) - 60 ≤ (Reading.mk 3 100).timestamp :=
  C1_window_invariant 60 1 [Reading.mk 1 0, Reading.mk 2 30]
    (Reading.mk 3 100) (by norm_num [List.chain'_cons]) (Reading.mk 3 100)
    (by decide)

/-- C2: `aggregate()` is absent exactly on an empty buffer; on a buffer
of `n ≥ 1` samples it yields `average = sum/n` (equivalently
`average × n = sum`), the minimum and maximum of the counts,
`derivedAverage = average × conversionFactor`, `sampleCount = n`, and
`asOf` the timestamp of the most recent buffer entry. -/
theorem C2_aggregate_statistics (s : MovingAverageAggregator) :
    ((s.get_aggregated).1 = none ↔ s.samples = []) ∧
    (∀ r rest, s.samples = r :: rest →
      ∃ a, (s.get_aggregated).1 = some a ∧
        a.cpm_avg = (((s.samples.map fun x => x.cpm).sum : Int) : Rat)
          / (s.samples.length : Rat) ∧
        a.cpm_avg * (s.samples.length : Rat) =
          (((s.samples.map fun x => x.cpm).sum : Int) : Rat) ∧
        a.cpm_min ∈ s.samples.map (fun x => x.cpm) ∧
        (∀ c ∈ s.samples.map fun x => x.cpm, a.cpm_min ≤ c) ∧
        a.cpm_max ∈ s.samples.map (fun x => x.cpm) ∧
        (∀ c ∈ s.samples.map fun x => x.cpm, c ≤ a.cpm_max) ∧
        a.usv_h_avg = a.cpm_avg * s.conversion_factor ∧
        a.sample_count = s.samples.length ∧
        a.timestamp =
          ((r :: rest).getLast (List.cons_ne_nil r rest)).timestamp) := by
  obtain ⟨w, cf, samples, last⟩ := s
  constructor
  · cases samples with
    | nil => simp [get_aggregated]
    | cons r rest => simp [get_aggregated]
  · intro r rest h
    simp only at h
    subst h
    refine ⟨_, rfl, ?_, ?_, ?_, ?_, ?_, ?_, rfl, ?_, rfl⟩
    · simp [List.length_map]
    · have hn : ((r :: rest).length : Rat) ≠ 0 := by
        simp only [List.length_cons]
        positivity
      simp only [List.length_map]
      exact div_mul_cancel₀ _ hn
    · simpa using foldl_min_mem (rest.map fun x => x.cpm) r.cpm
    · intro c hc
      exact foldl_min_le _ _ c (by simpa using hc)
    · simpa using foldl_max_mem (rest.map fun x => x.cpm) r.cpm
    · intro c hc
      exact foldl_max_ge _ _ c (by simpa using hc)
    · simp [List.length_map]

theorem C2_aggregate_statistics_witness :
    ((((init 600 (13/2000 : Rat)).add_reading ⟨42, 0⟩).add_reading
      ⟨44, 10⟩).get_aggregated).1 ≠ none := by
  obtain ⟨a, ha, -⟩ :=
    (C2_aggregate_statistics
      (((init 600 (13/2000 : Rat)).add_reading ⟨42, 0⟩).add_reading
        ⟨44, 10⟩)).2 ⟨42, 0⟩ [⟨44, 10⟩] (by decide)
  simp [ha]

/-- C4 as stated is false on the code: `mark_published` assigns
`_last_aggregation_time` unconditionally, so a `markEmitted` with an
earlier timestamp (an operation sequence containing no reset) moves the
gate backwards: after `mark_published 10` then `mark_published 5` the
gate reads `5`, earlier than the previous value `10`. -/
theorem C4_gate_monotonic_counterexample :
    (((init 600 (13/2000 : Rat)).mark_published 10).mark_published
      5).last_aggregation_time = some 5 ∧ ¬ ((10 : Int) ≤ 5) :=
  ⟨rfl, by decide⟩

/-- C4 amended: `markEmitted(t)` sets `lastEmittedAt` to `t`
unconditionally, so the gate moves only forward for every operation
sequence whose successive `markEmitted` timestamps are nondecreasing;
the remaining engine operations other than reset (`ingest`,
`aggregate`, `shouldEmit`) never change `lastEmittedAt` at all. -/
theorem C4_gate_monotonic_amended (s : MovingAverageAggregator)
    (r : Reading) (now interval t t' : Int)
    (hset : s.last_aggregation_time = some t) (hle : t ≤ t') :
    (s.mark_published t').last_aggregation_time = some t' ∧
    (∀ tnew, (s.mark_published t').last_aggregation_time = some tnew →
      t ≤ tnew) ∧
    (s.add_reading r).last_aggregation_time = s.last_aggregation_time ∧
    ((s.get_aggregated).2).last_aggregation_time =
      s.last_aggregation_time ∧
    ((s.should_publish now interval).2).last_aggregation_time =
      s.last_aggregation_time := by
  refine ⟨rfl, ?_, rfl, ?_, ?_⟩
  · intro tnew ht
    have h' : t' = tnew := by
      simpa [mark_published] using ht
    omega
  · rw [get_aggregated_snd]
  · rw [should_publish_snd]

theorem C4_gate_monotonic_amended_witness :
    (((init 600 (13/2000 : Rat)).mark_published 10).mark_published
      25).last_aggregation_time = some 25 :=
  (C4_gate_monotonic_amended ((init 600 (13/2000 : Rat)).mark_published 10)
    ⟨7, 0⟩ 0 600 10 25 rfl (by decide)).1

/-- C6: ingesting 120 one-second-spaced samples (arbitrary counts,
arbitrary start time) into a fresh engine with a 60-second window leaves
at most 61 samples in the buffer. -/
theorem C6_sample_count_bound (cf : Rat) (t0 : Int) (counts : Nat → Int) :
    ((init 60 cf).ingestAll
      ((List.range 120).map fun i =>
        ⟨counts i, t0 + (i : Int)⟩)).get_sample_count ≤ 61 := by
  set f : Nat → Reading := fun i => ⟨counts i, t0 + (i : Int)⟩ with hf
  set rs : List Reading := (List.range 119).map f with hrs
  set r : Reading := f 119 with hr
  have h120 : List.range 120 = List.range 119 ++ [119] := by decide
  have hsplit : (List.range 120).map f = rs ++ [r] := by
    rw [hrs, hr, h120, List.map_append]
    rfl
  have hpw : ((List.range 120).map f).Pairwise
      (fun a b : Reading => a.timestamp < b.timestamp) := by
    rw [List.pairwise_map]
    refine (List.pairwise_lt_range 120).imp ?_
    intro i j hij
    show (f i).timestamp < (f j).timestamp
    simp only [hf]
    omega
  set st := (init 60 cf).ingestAll ((List.range 120).map f) with hst
  have hbound : ∀ x ∈ st.samples, r.timestamp - 60 ≤ x.timestamp := by
    rw [hst, hsplit]
    exact ingest_window_bound 60 cf rs r (by rw [← hsplit]; exact hpw)
  have hsub : List.Sublist st.samples ((List.range 120).map f) := by
    have := ingestAll_samples_sublist (init 60 cf) ((List.range 120).map f)
    simpa [init] using this
  set P : Reading → Bool := fun x => decide (r.timestamp - 60 ≤ x.timestamp)
    with hP
  have hall : ∀ a ∈ st.samples, P a = true := by
    intro a ha
    simp only [hP, decide_eq_true_eq]
    exact hbound a ha
  have hlen : st.samples.length = st.samples.countP P :=
    (List.countP_eq_length.mpr hall).symm
  have hle : st.samples.countP P ≤ ((List.range 120).map f).countP P :=
    hsub.countP_le P
  have hcomp : ∀ i : Nat, P (f i) = decide (59 ≤ (i : Int)) := by
    intro i
    have hiff : (r.timestamp - 60 ≤ (f i).timestamp) ↔ (59 ≤ (i : Int)) := by
      show t0 + ((119 : Nat) : Int) - 60 ≤ t0 + (i : Int) ↔ 59 ≤ (i : Int)
      omega
    show decide (r.timestamp - 60 ≤ (f i).timestamp) = decide (59 ≤ (i : Int))
    exact decide_eq_decide.mpr hiff
  have hcount : ((List.range 120).map f).countP P = 61 := by
    rw [List.countP_map]
    have hcg : (List.range 120).countP (P ∘ f) =
        (List.range 120).countP (fun i : Nat => decide (59 ≤ (i : Int))) := by
      apply List.countP_congr
      intro i _
      rw [Function.comp_apply, hcomp i]
    rw [hcg]
    decide
  have : st.get_sample_count = st.samples.length := rfl
  omega
